import Mathlib

/-!
Verification of the tweet classification-and-extraction engine (`ts/tweet.ts`).

The `Tweet` class stores `this.text = tweet_text.trim()` and exposes the pure
getters `source`, `written`, `writtenText`, `activityType`, `distance`.  We
embed the text processing over `List Char` (the character sequence of a JS
string).  Regex-based global replacements are modelled as left-to-right,
non-overlapping scanners; the scanners take a fuel argument (instantiated with
the length of the scanned list, which is always sufficient since every step
consumes at least one character) so that every definition is structurally
recursive and kernel-evaluable.  Numbers are modelled as exact rationals
(`parseFloat` of the matched decimal literal, division by the literal
constant `1.609`).  Lower-casing is modelled on the ASCII range, which is all
the classifier's patterns use.
-/

namespace TweetSpec

/-- Whitespace characters: the set trimmed by the platform `trim()` and
matched by the regex class used in the source's patterns. -/
def isWsChar (c : Char) : Bool :=
  c == ' ' || c == '\t' || c == '\n' || c == '\r' || c == '\x0b' || c == '\x0c' ||
  c.val == 0x00a0 || c.val == 0x1680 ||
  (decide (0x2000 ≤ c.val) && decide (c.val ≤ 0x200a)) ||
  c.val == 0x2028 || c.val == 0x2029 || c.val == 0x202f ||
  c.val == 0x205f || c.val == 0x3000 || c.val == 0xfeff

/-- Word characters of the regex word-boundary semantics: `[A-Za-z0-9_]`. -/
def wordChar (c : Char) : Bool :=
  c.isAlphanum || c == '_'

/-- Lower-casing as used by `toLowerCase()` on the ASCII range. -/
def lowerL (s : List Char) : List Char :=
  s.map Char.toLower

/-- `pat` is a (case-sensitive) prefix of `s`, character by character. -/
def listPrefix : List Char → List Char → Bool
  | [], _ => true
  | _ :: _, [] => false
  | p :: ps, c :: cs => p == c && listPrefix ps cs

/-- `pat` occurs as a (case-sensitive) substring of the list:
the model of `String.prototype.includes`. -/
def listContains (pat : List Char) : List Char → Bool
  | [] => pat.isEmpty
  | l@(_ :: rest) => listPrefix pat l || listContains pat rest

/-- `pat` (given lower-cased) is a case-insensitive prefix of `s`:
the model of matching a literal pattern under the regex `i` flag. -/
def ciPrefix : List Char → List Char → Bool
  | [], _ => true
  | _ :: _, [] => false
  | p :: ps, c :: cs => p == c.toLower && ciPrefix ps cs

/-- One global, case-insensitive, non-overlapping removal pass of the literal
pattern `pat` (the model of `replace(/pat/gi, "")`).  `fuel` bounds the scan;
it is always instantiated with the length of the scanned list. -/
def removeAllCI (pat : List Char) : Nat → List Char → List Char
  | _, [] => []
  | 0, s => s
  | fuel + 1, c :: rest =>
    if ciPrefix pat (c :: rest) then
      removeAllCI pat fuel (List.drop (pat.length - 1) rest)
    else
      c :: removeAllCI pat fuel rest

/-- At the current position, try to match `https?:\/\/\S+`; on success return
the remainder of the list after the (greedy) match. -/
def urlSkip (s : List Char) : Option (List Char) :=
  if listPrefix (("http").data) s then
    let r := s.drop 4
    let r3 : Option (List Char) :=
      if listPrefix (("s://").data) r then some (r.drop 4)
      else if listPrefix (("://").data) r then some (r.drop 3)
      else none
    match r3 with
    | some r4 =>
      if (r4.takeWhile (fun c => !isWsChar c)).isEmpty then none
      else some (r4.dropWhile (fun c => !isWsChar c))
    | none => none
  else none

/-- Global removal of URLs: the model of `replace(/https?:\/\/\S+/g, "")`. -/
def removeUrls : Nat → List Char → List Char
  | _, [] => []
  | 0, s => s
  | fuel + 1, c :: rest =>
    match urlSkip (c :: rest) with
    | some rem => removeUrls fuel rem
    | none => c :: removeUrls fuel rest

/-- At the current position, try to match `via @?runkeeper` case-insensitively;
on success return the remainder after the match. -/
def viaSkip (s : List Char) : Option (List Char) :=
  if ciPrefix (("via ").data) s then
    let r := s.drop 4
    if listPrefix (("@").data) r then
      if ciPrefix (("runkeeper").data) (r.drop 1) then some ((r.drop 1).drop 9) else none
    else
      if ciPrefix (("runkeeper").data) r then some (r.drop 9) else none
  else none

/-- Global removal of the attribution phrase:
the model of `replace(/via @?runkeeper/gi, "")`. -/
def removeVias : Nat → List Char → List Char
  | _, [] => []
  | 0, s => s
  | fuel + 1, c :: rest =>
    match viaSkip (c :: rest) with
    | some rem => removeVias fuel rem
    | none => c :: removeVias fuel rest

/-- `replace(/#Runkeeper/gi, "")` (both casing variants in the source denote
the same case-insensitive pattern). -/
def hashClean (s : List Char) : List Char :=
  removeAllCI (("#runkeeper").data) s.length s

/-- `replace(/https?:\/\/\S+/g, "")`. -/
def urlClean (s : List Char) : List Char :=
  removeUrls s.length s

/-- `replace(/via @?runkeeper/gi, "")`. -/
def viaClean (s : List Char) : List Char :=
  removeVias s.length s

/-- Drop leading whitespace: the left half of `trim()`. -/
def trimL (s : List Char) : List Char :=
  s.dropWhile isWsChar

/-- Drop trailing whitespace: the right half of `trim()`. -/
def trimR : List Char → List Char
  | [] => []
  | c :: rest =>
    if (trimR rest).isEmpty && isWsChar c then [] else c :: trimR rest

/-- The platform `trim()`. -/
def jsTrim (s : List Char) : List Char :=
  trimL (trimR s)

/-- Collapse every maximal whitespace run to a single space:
the model of `replace(/\s+/g, " ")`. -/
def collapseWs : List Char → List Char
  | [] => []
  | [c] => if isWsChar c then [' '] else [c]
  | c1 :: c2 :: rest =>
    if isWsChar c1 && isWsChar c2 then collapseWs (c2 :: rest)
    else (if isWsChar c1 then ' ' else c1) :: collapseWs (c2 :: rest)

/-- `replace(/^"|"$/g, "")`: strip one leading and one trailing double-quote. -/
def stripQuotes (s : List Char) : List Char :=
  let s1 := if s.head? == some '"' then s.tail else s
  if s1.getLast? == some '"' then s1.dropLast else s1

/-- The private `stripped()` helper of the source (the Text Normalizer):
hashtag removal (twice, as in the source), URL removal, attribution removal,
`trim`, whitespace collapse, quote strip, `trim`. -/
def normalizeL (s : List Char) : List Char :=
  jsTrim (stripQuotes (collapseWs (jsTrim (viaClean (urlClean (hashClean (hashClean s)))))))

/-- `stripped()` on strings. -/
def normalize (s : String) : String :=
  ⟨normalizeL s.data⟩

/-- Boundary state before a potential match position: a `\b` holds before a
word character iff the previous character is absent or not a word character. -/
def prevBoundary : Option Char → Bool
  | none => true
  | some c => !wordChar c

/-- A `\b` holds after the pattern `w` matched at the head of `r`:
the character following the match, if any, is not a word character. -/
def wordEndsAt (w r : List Char) : Bool :=
  match (r.drop w.length).head? with
  | none => true
  | some c => !wordChar c

/-- The five activity words of the live-event regex
`\bis (running|biking|walking|skiing|swimming)\b`. -/
def isDoingWords : List (List Char) :=
  [("running").data, ("biking").data, ("walking").data, ("skiing").data, ("swimming").data]

/-- The live-event regex matches at the current position (boundary before
`is` already checked by the caller). -/
def isDoingHere (s : List Char) : Bool :=
  listPrefix (("is ").data) s &&
  isDoingWords.any (fun w => listPrefix w (s.drop 3) && wordEndsAt w (s.drop 3))

/-- `\bis (running|biking|walking|skiing|swimming)\b` matches somewhere in the
list; `prev` is the character before the current position. -/
def hasIsDoing : Option Char → List Char → Bool
  | _, [] => false
  | prev, c :: rest =>
    (prevBoundary prev && isDoingHere (c :: rest)) || hasIsDoing (some c) rest

/-- Rule 1 of the classifier (`looksCompleted` in the source), applied to the
lower-cased text. -/
def looksCompleted (t : List Char) : Bool :=
  listPrefix (("just completed").data) t ||
  listPrefix (("i just ").data) t ||
  listContains ((" completed a ").data) t ||
  listContains ((" completed an ").data) t

/-- Rule 2 of the classifier (`looksLive` in the source). -/
def looksLive (t : List Char) : Bool :=
  listPrefix (("just posted").data) t || hasIsDoing none t

/-- Rule 3 of the classifier (`looksAchievement` in the source). -/
def looksAchievement (t : List Char) : Bool :=
  listContains (("new personal record").data) t ||
  listContains (("pr!").data) t ||
  listContains (("achieved").data) t ||
  listContains (("set a goal").data) t ||
  listContains (("achievement").data) t

/-- The `source` getter: ordered classification of the lower-cased text. -/
def sourceL (text : List Char) : String :=
  if looksCompleted (lowerL text) then ("completed_event")
  else if looksLive (lowerL text) then ("live_event")
  else if looksAchievement (lowerL text) then ("achievement")
  else ("miscellaneous")

/-- `source` on the stored text of a tweet. -/
def source (text : String) : String :=
  sourceL text.data

/-- One global pass of `replace(new RegExp("\\b" + pat + "\\b", "g"), " ")`:
every whole-word occurrence of `pat` is replaced by a single space.  Scanning
(and its boundary conditions) run over the original list, as in JS `replace`;
`prev` is the original character before the current position. -/
def replaceWord (pat : List Char) : Nat → Option Char → List Char → List Char
  | _, _, [] => []
  | 0, _, s => s
  | fuel + 1, prev, c :: rest =>
    if prevBoundary prev && listPrefix pat (c :: rest) && wordEndsAt pat (c :: rest) then
      ' ' :: replaceWord pat fuel pat.getLast? (List.drop (pat.length - 1) rest)
    else
      c :: replaceWord pat fuel (some c) rest

/-- The template vocabulary of the written-content detector, in source order. -/
def templates : List (List Char) :=
  [("just completed").data, ("just posted").data, ("activity").data, ("workout").data,
   ("with runkeeper").data, ("check it out").data, ("distance").data, ("time").data,
   ("pace").data,
   ("completed a").data, ("completed an").data, ("posted a").data, ("posted an").data,
   ("run").data, ("walk").data, ("bike").data, ("ride").data, ("swim").data,
   ("hike").data, ("elliptical").data]

/-- The template-stripping loop of the `written` getter: each template word is
removed (whole-word, globally, replaced by a space) from the successively
transformed string. -/
def stripTemplates (s : List Char) : List Char :=
  templates.foldl (fun acc w => replaceWord w acc.length none acc) s

/-- The alphanumeric residue counted by the `written` getter: normalized,
lower-cased, template-stripped, whitespace-collapsed and trimmed text,
restricted to `[a-z0-9]`. -/
def residueL (text : List Char) : Nat :=
  ((jsTrim (collapseWs (stripTemplates (lowerL (normalizeL text))))).filter
    (fun c => c.isLower || c.isDigit)).length

/-- The `written` getter: at least 3 alphanumeric characters remain. -/
def writtenL (text : List Char) : Bool :=
  decide (3 ≤ residueL text)

/-- `written` on strings. -/
def written (text : String) : Bool :=
  writtenL text.data

/-- The alphanumeric residue on strings. -/
def residue (text : String) : Nat :=
  residueL text.data

/-- The `writtenText` getter: the normalized text when user-written, else `""`. -/
def writtenText (text : String) : String :=
  if written text then ⟨normalizeL text.data⟩ else ("")

/-- `\bpat\b` matches somewhere in the list (model of the alias whole-word
test in `activityType`); `prev` is the character before the current position. -/
def hasWholeWord (pat : List Char) : Option Char → List Char → Bool
  | _, [] => false
  | prev, c :: rest =>
    (prevBoundary prev && listPrefix pat (c :: rest) && wordEndsAt pat (c :: rest)) ||
    hasWholeWord pat (some c) rest

/-- The ordered activity table of the source: canonical label and alias list. -/
def activityTable : List (String × List (List Char)) :=
  [(("running"), [("run").data, ("jog").data, ("jogging").data]),
   (("walking"), [("walk").data, ("hike").data, ("hiking").data]),
   (("cycling"), [("bike").data, ("biked").data, ("biking").data, ("ride").data,
                  ("rode").data, ("cycling").data]),
   (("swimming"), [("swim").data, ("swam").data, ("swimming").data]),
   (("elliptical"), [("elliptical").data]),
   (("rowing"), [("row").data, ("rowing").data]),
   (("yoga"), [("yoga").data])]

/-- Some alias of the table entry `e` occurs as a whole word in `t`. -/
def aliasHit (e : String × List (List Char)) (t : List Char) : Bool :=
  e.2.any (fun a => hasWholeWord a none t)

/-- The alias-table loop of `activityType`: first entry (in table order) with
a whole-word alias occurrence wins. -/
def firstTableMatch : List (String × List (List Char)) → List Char → Option String
  | [], _ => none
  | e :: rest, t => if aliasHit e t then some e.1 else firstTableMatch rest t

/-- At the current position, try the fallback pattern
`completed (?:a|an) (\w+)`; on success return the captured word. -/
def fallbackAt (s : List Char) : Option (List Char) :=
  if listPrefix (("completed a ").data) s then
    let w := (s.drop 12).takeWhile wordChar
    if w.isEmpty then none else some w
  else if listPrefix (("completed an ").data) s then
    let w := (s.drop 13).takeWhile wordChar
    if w.isEmpty then none else some w
  else none

/-- First match of the fallback pattern anywhere in the list. -/
def scanFallback : List Char → Option (List Char)
  | [] => none
  | c :: rest =>
    match fallbackAt (c :: rest) with
    | some w => some w
    | none => scanFallback rest

/-- The `activityType` getter. -/
def activityTypeL (text : List Char) : String :=
  if sourceL text ≠ ("completed_event") then ("unknown")
  else
    match firstTableMatch activityTable (lowerL text) with
    | some label => label
    | none =>
      match scanFallback (lowerL text) with
      | some w => ⟨w⟩
      | none => ("unknown")

/-- `activityType` on strings. -/
def activityType (text : String) : String :=
  activityTypeL text.data

/-- Numeric value of a digit run (the integer part of `parseFloat`). -/
def digitsVal (l : List Char) : Nat :=
  l.foldl (fun n c => 10 * n + (c.toNat - 48)) 0

/-- Parse `\d+(?:\.\d+)?` at the head of `s`: the exact rational value of the
decimal literal (the value `parseFloat` returns) and the remainder. -/
def decimalAt (s : List Char) : Option (ℚ × List Char) :=
  let ds := s.takeWhile Char.isDigit
  if ds.isEmpty then none
  else
    let r := s.drop ds.length
    match r with
    | '.' :: r2 =>
      let fs := r2.takeWhile Char.isDigit
      if fs.isEmpty then some ((digitsVal ds : ℚ), r)
      else some ((digitsVal ds : ℚ) + (digitsVal fs : ℚ) / ((10 : ℚ) ^ fs.length),
                 r2.drop fs.length)
    | _ => some ((digitsVal ds : ℚ), r)

/-- The three mile unit spellings of the distance regex. -/
def unitMi : List (List Char) :=
  [("mi").data, ("mile").data, ("miles").data]

/-- The three kilometre unit spellings of the distance regex. -/
def unitKm : List (List Char) :=
  [("km").data, ("kilometer").data, ("kilometers").data]

/-- One of the unit spellings matches at the head of `r`, ending at a `\b`. -/
def unitHere (units : List (List Char)) (r : List Char) : Bool :=
  units.any (fun u => listPrefix u r && wordEndsAt u r)

/-- Scan for the first match of `(\d+(?:\.\d+)?)\s*(unit)\b` and return the
parsed number. -/
def distScan (units : List (List Char)) : List Char → Option ℚ
  | [] => none
  | c :: rest =>
    match decimalAt (c :: rest) with
    | some (q, r) =>
      if unitHere units (r.dropWhile isWsChar) then some q
      else distScan units rest
    | none => distScan units rest

/-- The `distance` getter: first the miles pattern (value returned as-is),
else the kilometre pattern (value divided by the literal `1.609`), else `0`;
`0` whenever the tweet is not a completed event. -/
def distanceL (text : List Char) : ℚ :=
  if sourceL text ≠ ("completed_event") then 0
  else
    match distScan unitMi (lowerL text) with
    | some q => q
    | none =>
      match distScan unitKm (lowerL text) with
      | some q => q / ((1609 : ℚ) / 1000)
      | none => 0

/-- `distance` on strings. -/
def distance (text : String) : ℚ :=
  distanceL text.data

/-- The constructor: `this.text = (tweet_text ?? "").trim()`. -/
def storedText (raw : String) : String :=
  ⟨jsTrim raw.data⟩

/-- All five derived outputs of a tweet built from the raw input `raw`:
category, written flag, written text, activity type, distance in miles. -/
def tweetOutputs (raw : String) : String × Bool × String × String × ℚ :=
  (source (storedText raw), written (storedText raw), writtenText (storedText raw),
   activityType (storedText raw), distance (storedText raw))

/-- Every whitespace character of the list is a plain space (an invariant of
the collapse step of the Normalizer). -/
def allWsSpace (l : List Char) : Bool :=
  l.all (fun c => !isWsChar c || c == ' ')

/-- No two adjacent whitespace characters (an invariant of the collapse step
of the Normalizer). -/
def noAdj : List Char → Bool
  | [] => true
  | [_] => true
  | c1 :: c2 :: rest => !(isWsChar c1 && isWsChar c2) && noAdj (c2 :: rest)

/-! ## Helper lemmas about the Normalizer's whitespace handling -/

theorem trimL_append_allWs (w x : List Char) (hw : ∀ c ∈ w, isWsChar c = true) :
    trimL (w ++ x) = trimL x := by
  induction w with
  | nil => rfl
  | cons c w ih =>
    have hc : isWsChar c = true := hw c (List.mem_cons_self c w)
    have hw' : ∀ c' ∈ w, isWsChar c' = true :=
      fun c' hc' => hw c' (List.mem_cons_of_mem _ hc')
    simp [trimL, List.dropWhile_cons, hc] at ih ⊢
    exact ih hw'

theorem trimR_nil_of_allWs (w : List Char) (hw : ∀ c ∈ w, isWsChar c = true) :
    trimR w = [] := by
  induction w with
  | nil => rfl
  | cons c w ih =>
    have hc : isWsChar c = true := hw c (List.mem_cons_self c w)
    have hw' : ∀ c' ∈ w, isWsChar c' = true :=
      fun c' hc' => hw c' (List.mem_cons_of_mem _ hc')
    simp [trimR, ih hw', hc]

theorem trimR_append_allWs (x w : List Char) (hw : ∀ c ∈ w, isWsChar c = true) :
    trimR (x ++ w) = trimR x := by
  induction x with
  | nil => simpa using trimR_nil_of_allWs w hw
  | cons c x ih => simp [trimR, ih]

theorem trimL_trimR_comm (l : List Char) : trimL (trimR l) = trimR (trimL l) := by
  induction l with
  | nil => rfl
  | cons c rest ih =>
    by_cases hw : isWsChar c = true
    · by_cases he : trimR rest = []
      · have h1 : trimR (c :: rest) = [] := by simp [trimR, he, hw]
        have h2 : trimL (c :: rest) = trimL rest := by simp [trimL, List.dropWhile_cons, hw]
        rw [h1, h2, ← ih, he]
      · have h1 : trimR (c :: rest) = c :: trimR rest := by
          simp [trimR, List.isEmpty_iff, he]
        rw [h1]
        have h2 : trimL (c :: trimR rest) = trimL (trimR rest) := by
          simp [trimL, List.dropWhile_cons, hw]
        have h3 : trimL (c :: rest) = trimL rest := by
          simp [trimL, List.dropWhile_cons, hw]
        rw [h2, h3, ih]
    · have hw' : isWsChar c = false := by simpa using hw
      have h1 : trimR (c :: rest) = c :: trimR rest := by simp [trimR, hw']
      have h2 : trimL (c :: rest) = c :: rest := by simp [trimL, List.dropWhile_cons, hw']
      rw [h1, h2]
      simp [trimL, List.dropWhile_cons, hw', h1]

theorem trimL_idem (l : List Char) : trimL (trimL l) = trimL l := by
  simp [trimL, List.dropWhile_idempotent]

theorem trimR_idem (l : List Char) : trimR (trimR l) = trimR l := by
  induction l with
  | nil => rfl
  | cons c rest ih =>
    by_cases hcond : ((trimR rest).isEmpty && isWsChar c) = true
    · have h1 : trimR (c :: rest) = [] := by simp [trimR, hcond]
      rw [h1]
      rfl
    · have h1 : trimR (c :: rest) = c :: trimR rest := by
        simp only [trimR]
        rw [if_neg hcond]
      rw [h1]
      simp only [trimR, ih]
      rw [if_neg hcond]

theorem jsTrim_idem (l : List Char) : jsTrim (jsTrim l) = jsTrim l := by
  unfold jsTrim
  rw [← trimL_trimR_comm (trimR l), trimR_idem, trimL_idem]

theorem jsTrim_sandwich (w1 x w2 : List Char)
    (h1 : ∀ c ∈ w1, isWsChar c = true) (h2 : ∀ c ∈ w2, isWsChar c = true) :
    jsTrim (w1 ++ x ++ w2) = jsTrim x := by
  unfold jsTrim
  rw [trimR_append_allWs (w1 ++ x) w2 h2, trimL_trimR_comm (w1 ++ x),
    trimL_append_allWs w1 x h1, ← trimL_trimR_comm x]

theorem noAdj_tail_cons (c : Char) (l : List Char) (h : noAdj (c :: l) = true) :
    noAdj l = true := by
  cases l with
  | nil => rfl
  | cons c2 r =>
    simp only [noAdj, Bool.and_eq_true] at h
    exact h.2

theorem collapseWs_cons_of_not_ws (c : Char) (r : List Char) (h : isWsChar c = false) :
    ∃ t, collapseWs (c :: r) = c :: t := by
  cases r with
  | nil => exact ⟨[], by simp [collapseWs, h]⟩
  | cons c2 r2 => exact ⟨collapseWs (c2 :: r2), by simp [collapseWs, h]⟩

theorem allWsSpace_collapseWs (l : List Char) : allWsSpace (collapseWs l) = true := by
  induction l with
  | nil => rfl
  | cons c rest ih =>
    cases rest with
    | nil =>
      by_cases hw : isWsChar c = true <;> simp [collapseWs, hw, allWsSpace]
    | cons c2 r2 =>
      by_cases hb : (isWsChar c && isWsChar c2) = true
      · simpa [collapseWs, hb] using ih
      · simp only [allWsSpace, List.all_eq_true] at ih ⊢
        intro a ha
        simp only [collapseWs, if_neg hb, List.mem_cons] at ha
        rcases ha with ha | ha
        · subst ha
          by_cases hw : isWsChar c = true <;> simp [hw]
        · exact ih a ha

theorem noAdj_collapseWs (l : List Char) : noAdj (collapseWs l) = true := by
  induction l with
  | nil => rfl
  | cons c rest ih =>
    cases rest with
    | nil =>
      by_cases hw : isWsChar c = true <;> simp [collapseWs, hw, noAdj]
    | cons c2 r2 =>
      by_cases hb : (isWsChar c && isWsChar c2) = true
      · simpa [collapseWs, hb] using ih
      · by_cases hw : isWsChar c = true
        · have hc2 : isWsChar c2 = false := by
            simp [hw] at hb
            simpa using hb
          obtain ⟨t, ht⟩ := collapseWs_cons_of_not_ws c2 r2 hc2
          have ih' : noAdj (c2 :: t) = true := ht ▸ ih
          simp [collapseWs, hb, hw, ht, noAdj, hc2, ih']
        · have hw' : isWsChar c = false := by simpa using hw
          cases hL : collapseWs (c2 :: r2) with
          | nil => simp [collapseWs, hb, hw', hL, noAdj]
          | cons d t =>
            have ih' : noAdj (d :: t) = true := hL ▸ ih
            simp [collapseWs, hb, hw', hL, noAdj, ih']

theorem collapseWs_fix (l : List Char) (h1 : allWsSpace l = true) (h2 : noAdj l = true) :
    collapseWs l = l := by
  induction l with
  | nil => rfl
  | cons c rest ih =>
    have hc : isWsChar c = true → c = ' ' := by
      intro hw
      simp only [allWsSpace, List.all_cons, Bool.and_eq_true, Bool.or_eq_true,
        Bool.not_eq_true'] at h1
      rcases h1.1 with h | h
      · rw [h] at hw
        cases hw
      · exact eq_of_beq h
    cases rest with
    | nil =>
      by_cases hw : isWsChar c = true
      · simp [collapseWs, hw, hc hw]
      · simp [collapseWs, hw]
    | cons c2 r2 =>
      have hpair : ¬ ((isWsChar c && isWsChar c2) = true) := by
        simp only [noAdj, Bool.and_eq_true, Bool.not_eq_true'] at h2
        simp [h2.1]
      have h1' : allWsSpace (c2 :: r2) = true := by
        simp only [allWsSpace, List.all_cons, Bool.and_eq_true] at h1 ⊢
        exact h1.2
      have h2' : noAdj (c2 :: r2) = true := by
        simp only [noAdj, Bool.and_eq_true] at h2
        exact h2.2
      have hx : (if isWsChar c then ' ' else c) = c := by
        by_cases hw : isWsChar c = true
        · simp [hw, hc hw]
        · simp [hw]
      simp [collapseWs, hpair, hx, ih h1' h2']

theorem allWsSpace_sub {l l' : List Char} (hsub : ∀ a, a ∈ l' → a ∈ l)
    (h : allWsSpace l = true) : allWsSpace l' = true := by
  simp only [allWsSpace, List.all_eq_true] at h ⊢
  exact fun a ha => h a (hsub a ha)

theorem mem_of_mem_trimL {a : Char} {l : List Char} (ha : a ∈ trimL l) : a ∈ l := by
  induction l with
  | nil => simp [trimL] at ha
  | cons c rest ih =>
    by_cases hw : isWsChar c = true
    · simp only [trimL, List.dropWhile_cons, hw, if_true] at ha
      exact List.mem_cons_of_mem _ (ih ha)
    · simp only [trimL, List.dropWhile_cons, hw, if_false, Bool.false_eq_true] at ha
      exact ha

theorem trimR_eq_nil_or_cons (c : Char) (l : List Char) :
    trimR (c :: l) = [] ∨ trimR (c :: l) = c :: trimR l := by
  by_cases hcond : ((trimR l).isEmpty && isWsChar c) = true
  · left
    simp [trimR, hcond]
  · right
    simp only [trimR]
    rw [if_neg hcond]

theorem mem_of_mem_trimR {a : Char} : ∀ l : List Char, a ∈ trimR l → a ∈ l := by
  intro l
  induction l with
  | nil => simp [trimR]
  | cons c rest ih =>
    intro ha
    rcases trimR_eq_nil_or_cons c rest with h1 | h1
    · rw [h1] at ha
      simp at ha
    · rw [h1] at ha
      rcases List.mem_cons.1 ha with ha | ha
      · exact ha ▸ List.mem_cons_self c rest
      · exact List.mem_cons_of_mem _ (ih ha)

theorem noAdj_trimL (l : List Char) (h : noAdj l = true) : noAdj (trimL l) = true := by
  induction l with
  | nil => rfl
  | cons c rest ih =>
    by_cases hw : isWsChar c = true
    · simp only [trimL, List.dropWhile_cons, hw, if_true]
      simpa [trimL] using ih (noAdj_tail_cons c rest h)
    · simpa [trimL, List.dropWhile_cons, hw] using h

theorem noAdj_trimR (l : List Char) (h : noAdj l = true) : noAdj (trimR l) = true := by
  induction l with
  | nil => rfl
  | cons c rest ih =>
    rcases trimR_eq_nil_or_cons c rest with h1 | h1
    · rw [h1]
      rfl
    · rw [h1]
      have ihr : noAdj (trimR rest) = true := ih (noAdj_tail_cons c rest h)
      cases rest with
      | nil => simp [trimR, noAdj]
      | cons e rt =>
        rcases trimR_eq_nil_or_cons e rt with h2 | h2
        · rw [h2]
          rfl
        · rw [h2]
          simp only [noAdj, Bool.and_eq_true] at h ⊢
          exact ⟨h.1, by rw [← h2]; exact ihr⟩

theorem dropLast_eq_nil_or_cons (c : Char) (l : List Char) :
    (c :: l).dropLast = [] ∨ (c :: l).dropLast = c :: l.dropLast := by
  cases l with
  | nil => left; rfl
  | cons e rt => right; rfl

theorem noAdj_dropLast (l : List Char) (h : noAdj l = true) : noAdj l.dropLast = true := by
  induction l with
  | nil => rfl
  | cons c rest ih =>
    rcases dropLast_eq_nil_or_cons c rest with h1 | h1
    · rw [h1]
      rfl
    · rw [h1]
      have ihr : noAdj rest.dropLast = true := ih (noAdj_tail_cons c rest h)
      cases rest with
      | nil => simp at h1
      | cons e rt =>
        rcases dropLast_eq_nil_or_cons e rt with h2 | h2
        · rw [h2]
          rfl
        · rw [h2]
          simp only [noAdj, Bool.and_eq_true] at h ⊢
          exact ⟨h.1, by rw [← h2]; exact ihr⟩

theorem mem_of_mem_stripQuotes {a : Char} (l : List Char) (ha : a ∈ stripQuotes l) :
    a ∈ l := by
  simp only [stripQuotes] at ha
  split at ha <;> split at ha
  · exact List.tail_subset l (List.mem_of_mem_dropLast ha)
  · exact List.tail_subset l ha
  · exact List.mem_of_mem_dropLast ha
  · exact ha

theorem noAdj_stripQuotes (l : List Char) (h : noAdj l = true) :
    noAdj (stripQuotes l) = true := by
  simp only [stripQuotes]
  split
  · have h1 : noAdj l.tail = true := by
      cases l with
      | nil => rfl
      | cons c r => exact noAdj_tail_cons c r h
    split
    · exact noAdj_dropLast _ h1
    · exact h1
  · split
    · exact noAdj_dropLast _ h
    · exact h

theorem allWsSpace_jsTrim (l : List Char) (h : allWsSpace l = true) :
    allWsSpace (jsTrim l) = true :=
  allWsSpace_sub (fun _ ha => mem_of_mem_trimR l (mem_of_mem_trimL ha))
    h

theorem noAdj_jsTrim (l : List Char) (h : noAdj l = true) : noAdj (jsTrim l) = true :=
  noAdj_trimL _ (noAdj_trimR l h)

theorem allWsSpace_normalizeL (s : List Char) : allWsSpace (normalizeL s) = true := by
  unfold normalizeL
  apply allWsSpace_jsTrim
  apply allWsSpace_sub (fun a ha => mem_of_mem_stripQuotes _ ha)
  apply allWsSpace_collapseWs

theorem noAdj_normalizeL (s : List Char) : noAdj (normalizeL s) = true := by
  unfold normalizeL
  apply noAdj_jsTrim
  apply noAdj_stripQuotes
  apply noAdj_collapseWs

theorem jsTrim_normalizeL (s : List Char) : jsTrim (normalizeL s) = normalizeL s := by
  unfold normalizeL
  rw [jsTrim_idem]

/-! ## Claim theorems -/

/-- Claim C1: for every text whose classified category is not
`completed_event`, the extraction returns `activityType = "unknown"` and
`distanceMiles = 0`, regardless of the text's content. -/
theorem c1_noncompleted_unknown_zero (text : String)
    (h : source text ≠ ("completed_event")) :
    activityType text = ("unknown") ∧ distance text = 0 := by
  unfold source at h
  refine ⟨?_, ?_⟩
  · unfold activityType activityTypeL
    rw [if_pos h]
  · unfold distance distanceL
    rw [if_pos h]

/-- Witness for C1: `"is running a marathon today!"` classifies as a
non-completed category (`live_event`) and yields `"unknown"` and `0`. -/
theorem c1_noncompleted_unknown_zero_w :
    source ("is running a marathon today!") ≠ ("completed_event") ∧
    (activityType ("is running a marathon today!") = ("unknown") ∧
     distance ("is running a marathon today!") = 0) :=
  And.intro (by decide)
    (c1_noncompleted_unknown_zero ("is running a marathon today!") (by decide))

/-- Claim C2: any text satisfying both the completed-event rule and the
live-event rule classifies as `completed_event`, never `live_event`. -/
theorem c2_completed_over_live (text : String)
    (h1 : looksCompleted (lowerL text.data) = true)
    (_h2 : looksLive (lowerL text.data) = true) :
    source text = ("completed_event") ∧ source text ≠ ("live_event") := by
  have hs : source text = ("completed_event") := by
    unfold source sourceL
    rw [if_pos h1]
  exact ⟨hs, by rw [hs]; decide⟩

/-- Witness for C2: `"i just heard she is running today"` satisfies both the
completed rule (starts with `"i just "`) and the live rule (`is running`),
and classifies as `completed_event`. -/
theorem c2_completed_over_live_w :
    looksCompleted (lowerL ("i just heard she is running today").data) = true ∧
    looksLive (lowerL ("i just heard she is running today").data) = true ∧
    (source ("i just heard she is running today") = ("completed_event") ∧
     source ("i just heard she is running today") ≠ ("live_event")) :=
  And.intro (by decide) (And.intro (by decide)
    (c2_completed_over_live ("i just heard she is running today") (by decide) (by decide)))

/-- Claim C3: `classify` is total and returns exactly one of the four
category literals; text matching none of the rules falls through to
`miscellaneous`. -/
theorem c3_total_four_categories (text : String) :
    (source text = ("completed_event") ∨ source text = ("live_event") ∨
     source text = ("achievement") ∨ source text = ("miscellaneous")) ∧
    (looksCompleted (lowerL text.data) = false →
     looksLive (lowerL text.data) = false →
     looksAchievement (lowerL text.data) = false →
     source text = ("miscellaneous")) := by
  constructor
  · unfold source sourceL
    split
    · exact Or.inl rfl
    · split
      · exact Or.inr (Or.inl rfl)
      · split
        · exact Or.inr (Or.inr (Or.inl rfl))
        · exact Or.inr (Or.inr (Or.inr rfl))
  · intro h1 h2 h3
    unfold source sourceL
    rw [if_neg (by simp [h1]), if_neg (by simp [h2]), if_neg (by simp [h3])]

/-- Witness for C3: `"hello"` matches no rule and falls through. -/
theorem c3_total_four_categories_w :
    source ("hello") = ("miscellaneous") :=
  (c3_total_four_categories ("hello")).2 (by decide) (by decide) (by decide)

/-- Claim C4: the written-content decision is exactly the comparison of the
alphanumeric residue (after normalization, lower-casing and whole-word
template stripping) against the threshold 3: residue 2 gives `false`,
residue 3 gives `true`. -/
theorem c4_residue_threshold (text : String) :
    written text = decide (3 ≤ residue text) ∧
    (residue text = 2 → written text = false) ∧
    (residue text = 3 → written text = true) := by
  refine ⟨rfl, ?_, ?_⟩
  · intro h
    unfold residue at h
    unfold written writtenL
    rw [h]
    decide
  · intro h
    unfold residue at h
    unfold written writtenL
    rw [h]
    decide

/-- Witness for C4: `"ab"` leaves residue 2 (not written), `"abc"` leaves
residue 3 (written). -/
theorem c4_residue_threshold_w :
    residue ("ab") = 2 ∧ written ("ab") = false ∧
    residue ("abc") = 3 ∧ written ("abc") = true :=
  ⟨by decide, (c4_residue_threshold ("ab")).2.1 (by decide),
   by decide, (c4_residue_threshold ("abc")).2.2 (by decide)⟩

/-- Claim C5: `writtenText` is empty when `isUserWritten` is false and equals
the normalized text when it is true. -/
theorem c5_writtenText_normalized (text : String) :
    (written text = false → writtenText text = ("")) ∧
    (written text = true → writtenText text = normalize text) := by
  constructor
  · intro h
    unfold writtenText
    rw [if_neg (by simp [h])]
  · intro h
    unfold writtenText normalize
    rw [if_pos h]

/-- Witness for C5: the written post `"abc"` and the non-written post `"ab"`. -/
theorem c5_writtenText_normalized_w :
    written ("abc") = true ∧ writtenText ("abc") = normalize ("abc") ∧
    written ("ab") = false ∧ writtenText ("ab") = ("") :=
  ⟨by decide, (c5_writtenText_normalized ("abc")).2 (by decide),
   by decide, (c5_writtenText_normalized ("ab")).1 (by decide)⟩

/-- Counterexample to C7 as stated: the unprefixed texts of the claim do not
classify as `completed_event` (no rule matches `"completed a 10 km run"`:
it neither starts with a completed phrase nor contains `" completed a "`
with the leading space), so the extractor short-circuits to `0`, which is
not within `0.001` of `6.214`, and the mile text also yields `0`, not `3`. -/
theorem c7_distance_cx :
    distance ("completed a 10 km run") = 0 ∧
    ¬ (|distance ("completed a 10 km run") - (6214 : ℚ)/1000| ≤ (1 : ℚ)/1000) ∧
    distance ("completed a 3 mile run") = 0 := by
  have h1 : distance ("completed a 10 km run") = 0 := rfl
  have h2 : distance ("completed a 3 mile run") = 0 := rfl
  refine ⟨h1, ?_, h2⟩
  rw [h1]
  rw [abs_le]
  norm_num

/-- Claim C7 amended: on texts that do classify as completed events, the
kilometre text yields exactly `10/1.609 = 10000/1609 ≈ 6.215`, which is
within `0.0011` (not `0.001`) of `6.214`, and the mile text yields exactly
`3`. -/
theorem c7_distance_conversion :
    distance ("Just completed a 10 km run") = (10000 : ℚ)/1609 ∧
    |distance ("Just completed a 10 km run") - (6214 : ℚ)/1000| ≤ (11 : ℚ)/10000 ∧
    distance ("Just completed a 3 mile run") = 3 := by
  have h1 : distance ("Just completed a 10 km run") = (10 : ℚ) / ((1609 : ℚ)/1000) := rfl
  have h2 : distance ("Just completed a 3 mile run") = 3 := rfl
  refine ⟨?_, ?_, h2⟩
  · rw [h1]
    norm_num
  · rw [h1]
    rw [abs_le]
    constructor <;> norm_num

/-- Counterexample to C8 as stated: in the completed-event text
`"Just completed a 3mi run"` the number is directly adjacent to the unit,
yet the distance is not `0` — the miles branch fired (the kilometre branch
cannot match this text), contradicting the claim that it requires
intervening whitespace. -/
theorem c8_adjacent_unit_cx :
    distance ("Just completed a 3mi run") ≠ 0 := by
  have h : distance ("Just completed a 3mi run") = 3 := rfl
  rw [h]
  norm_num

/-- Claim C8 amended: the miles pattern `(\d+(?:\.\d+)?)\s*(mi|mile|miles)\b`
permits zero whitespace between number and unit, so both `"3mi"` and
`"3 mi"` fire the miles branch and yield `3`. -/
theorem c8_adjacent_unit_fires :
    distance ("Just completed a 3mi run") = 3 ∧
    distance ("Just completed a 3 mi run") = 3 :=
  ⟨rfl, rfl⟩

/-- Counterexample to C6 as stated: normalization strips only one leading and
one trailing double-quote per application, so on `""a""` a second application
strips a further quote layer and the result changes. -/
theorem c6_normalize_cx :
    normalize (normalize ("\"\"a\"\"")) ≠ normalize ("\"\"a\"\"") := by
  decide

/-- Claim C6 amended: normalization is idempotent on every text whose
normalized form is already a fixed point of the four one-shot cleanup passes
(hashtag removal, URL removal, attribution removal, quote stripping); the
whitespace machinery (trim and collapse) is idempotent unconditionally, so a
second application can only differ via those passes. -/
theorem c6_normalize_idem (text : String)
    (hh : hashClean (normalize text).data = (normalize text).data)
    (hu : urlClean (normalize text).data = (normalize text).data)
    (hv : viaClean (normalize text).data = (normalize text).data)
    (hq : stripQuotes (normalize text).data = (normalize text).data) :
    normalize (normalize text) = normalize text := by
  have ht : jsTrim (normalize text).data = (normalize text).data :=
    jsTrim_normalizeL text.data
  have hA : allWsSpace (normalize text).data = true :=
    allWsSpace_normalizeL text.data
  have hN : noAdj (normalize text).data = true :=
    noAdj_normalizeL text.data
  have hc : collapseWs (normalize text).data = (normalize text).data :=
    collapseWs_fix _ hA hN
  show (⟨normalizeL (normalize text).data⟩ : String) = normalize text
  rw [show normalizeL (normalize text).data
      = jsTrim (stripQuotes (collapseWs (jsTrim (viaClean (urlClean
          (hashClean (hashClean (normalize text).data))))))) from rfl]
  rw [hh, hh, hu, hv, ht, hc, hq, ht]

/-- Witness for C6 amended: a clean completed-event text is a fixed point of
all four cleanup passes, and normalization is idempotent on it. -/
theorem c6_normalize_idem_w :
    (hashClean (normalize ("Just completed a run")).data
        = (normalize ("Just completed a run")).data ∧
     urlClean (normalize ("Just completed a run")).data
        = (normalize ("Just completed a run")).data ∧
     viaClean (normalize ("Just completed a run")).data
        = (normalize ("Just completed a run")).data ∧
     stripQuotes (normalize ("Just completed a run")).data
        = (normalize ("Just completed a run")).data) ∧
    normalize (normalize ("Just completed a run")) = normalize ("Just completed a run") :=
  ⟨⟨by decide, by decide, by decide, by decide⟩,
   c6_normalize_idem ("Just completed a run") (by decide) (by decide) (by decide) (by decide)⟩

theorem firstTableMatch_le (tab : List (String × List (List Char))) (t : List Char) :
    ∀ (i : Nat) (hi : i < tab.length), aliasHit (tab.get ⟨i, hi⟩) t = true →
    ∃ (k : Nat) (hk : k < tab.length), k ≤ i ∧
      firstTableMatch tab t = some ((tab.get ⟨k, hk⟩).1) := by
  induction tab with
  | nil =>
    intro i hi _
    exact absurd hi (Nat.not_lt_zero i)
  | cons e rest ih =>
    intro i hi hhit
    by_cases hh : aliasHit e t = true
    · refine ⟨0, Nat.succ_pos _, Nat.zero_le _, ?_⟩
      simp [firstTableMatch, hh]
    · cases i with
      | zero => exact absurd hhit hh
      | succ i2 =>
        have hi2 : i2 < rest.length := Nat.lt_of_succ_lt_succ hi
        obtain ⟨k, hk, hki, hres⟩ := ih i2 hi2 hhit
        refine ⟨k + 1, Nat.succ_lt_succ hk, Nat.succ_le_succ hki, ?_⟩
        simp only [firstTableMatch, if_neg hh]
        exact hres

/-- Claim C9: activity resolution follows table order as priority — whenever
aliases of an earlier and of a later table entry both occur as whole words in
a completed-event text, the result is never the later label; in particular
`"Just completed a 5k run and bike ride"` resolves to `running`, not
`cycling`. -/
theorem c9_table_priority :
    (∀ (text : String) (i j : Nat), i < j → j < activityTable.length →
        source text = ("completed_event") →
        aliasHit (activityTable.getD i (("unknown"), [])) (lowerL text.data) = true →
        aliasHit (activityTable.getD j (("unknown"), [])) (lowerL text.data) = true →
        activityType text ≠ (activityTable.getD j (("unknown"), [])).1) ∧
    activityType ("Just completed a 5k run and bike ride") = ("running") := by
  constructor
  · intro text i j hij hj hsrc hhi _hhj
    have hi : i < activityTable.length := Nat.lt_trans hij hj
    unfold activityType activityTypeL
    rw [if_neg (show ¬ (sourceL text.data ≠ ("completed_event")) from fun hne => hne hsrc)]
    rw [List.getD_eq_get activityTable (("unknown"), []) hi] at hhi
    obtain ⟨k, hk, hki, hfm⟩ := firstTableMatch_le activityTable (lowerL text.data) i hi hhi
    rw [hfm]
    show (activityTable.get ⟨k, hk⟩).1 ≠ (activityTable.getD j (("unknown"), [])).1
    rw [← List.getD_eq_get activityTable (("unknown"), []) hk]
    have hkj : k ≠ j := by omega
    have hk7 : k < 7 := by simpa [activityTable] using hk
    have hj7 : j < 7 := by simpa [activityTable] using hj
    interval_cases k <;> interval_cases j <;>
      first
        | exact absurd rfl hkj
        | decide
  · decide

/-- Witness for C9: in `"Just completed a 5k run and bike ride"` both a
`running` alias (entry 0) and `cycling` aliases (entry 2) occur, and the
result is not `cycling`. -/
theorem c9_table_priority_w :
    activityType ("Just completed a 5k run and bike ride") ≠ ("cycling") :=
  c9_table_priority.1 ("Just completed a 5k run and bike ride") 0 2 (by decide) (by decide)
    (by decide) (by decide) (by decide)

/-- Claim C10: every derived output is invariant under leading and trailing
whitespace in the raw post text, because the constructor trims the text
before any rule is applied. -/
theorem c10_trim_invariance (t w1 w2 : String)
    (h1 : ∀ c ∈ w1.data, isWsChar c = true)
    (h2 : ∀ c ∈ w2.data, isWsChar c = true) :
    tweetOutputs (w1 ++ t ++ w2) = tweetOutputs t := by
  have hd : (w1 ++ t ++ w2).data = w1.data ++ t.data ++ w2.data := by
    cases w1
    cases t
    cases w2
    rfl
  have key : storedText (w1 ++ t ++ w2) = storedText t := by
    unfold storedText
    rw [hd]
    exact congrArg String.mk (jsTrim_sandwich w1.data t.data w2.data h1 h2)
  unfold tweetOutputs
  rw [key]

/-- Witness for C10: `"  Just completed a run \n"` produces the same five
outputs as `"Just completed a run"`. -/
theorem c10_trim_invariance_w :
    tweetOutputs (("  ") ++ ("Just completed a run") ++ (" \n")) =
      tweetOutputs ("Just completed a run") :=
  c10_trim_invariance ("Just completed a run") ("  ") (" \n") (by decide) (by decide)

end TweetSpec
